import Mathlib

set_option maxRecDepth 100000

/-!
Shallow embedding of the chunk-section decoder of `src/src/world/Section.cpp`
(`Section::Section`, `Section::Parse`, `Section::GetBlock`,
`Section::Section(const Section &)`), together with theorems checking the
specification's claims about it.

Machine integers (`byte`, `unsigned short`) are modelled as `Nat`; all the
intermediate values of the decoder stay far below every relevant modulus
(the bit accumulator `t` never exceeds `0x7F`, see `unpackStep_t_lt`), so no
explicit wrap-around is needed and the `Nat` operations agree with the C++
unsigned operations.  Fallible or blocking behaviour is modelled with
`Option` / an explicit outcome type.
-/

/-- Modelled from the spec: the `Vector` integer-triple value type
(`Vector.hpp` is not under `src/`); §3 "Position — an integer triple
(x, y, z)".  `GetX`/`GetY`/`GetZ` are the field projections. -/
structure Vec where
  x : Int
  y : Int
  z : Int
deriving DecidableEq, Inhabited

/-- Modelled from the spec: the `Block` voxel value type (`Block.hpp` is not
under `src/`); §3 "Voxel — { typeId, auxState }".  The constructor stores its
two arguments, exactly as used at `Section.cpp:85`:
`Block block(blockId >> 4, blockId & 0xF)`. -/
structure Block where
  typeId : Nat
  auxState : Nat
deriving DecidableEq, Inhabited

/-- The eight bits of a byte in the order the inner loop of
`Section::Parse` (lines 60–63) consumes them: it tests `b & 0x01` and then
shifts `b` right, i.e. least-significant bit first. -/
def byteBits (b : Nat) : List Bool :=
  (List.range 8).map (fun j => b.testBit j)

/-- State of the bit-unpacking loop of `Section::Parse` (lines 57–72):
`bitPos` and the 16-bit accumulator `t`, plus the list of values pushed to
`blocks` so far (held in reverse: `push_back` appends, the model prepends
and reverses at the end). -/
structure UnpackState where
  bitPos : Nat
  t : Nat
  outRev : List Nat
deriving DecidableEq

/-- One iteration of the inner loop of `Section::Parse` (lines 61–70) on one
bit: `t |= bit ? 0x80 : 0x00; t >>= 1; bitPos++;` and on
`bitPos >= bitsPerBlock` emit `t >> (bitsPerBlock - 1)` and reset. -/
def unpackStep (bitsPerBlock : Nat) (s : UnpackState) (bit : Bool) : UnpackState :=
  let t := (s.t ||| (if bit then 0x80 else 0x00)) >>> 1
  if s.bitPos + 1 ≥ bitsPerBlock then
    ⟨0, 0, (t >>> (bitsPerBlock - 1)) :: s.outRev⟩
  else
    ⟨s.bitPos + 1, t, s.outRev⟩

/-- The bit-unpacking loop of `Section::Parse` (lines 57–72): scan the
buffer byte by byte, least-significant bit of each byte first, and collect
the emitted values in `push_back` order. -/
def bitUnpack (bitsPerBlock : Nat) (data : List Nat) : List Nat :=
  ((data.map byteBits).flatten.foldl (unpackStep bitsPerBlock) ⟨0, 0, []⟩).outRev.reverse

/-- The light-unpacking loop of `Section::Parse` (lines 76–82): each input
byte `t` contributes `t & 0b11110000` and then `t >> 4`. -/
def lightExpand (l : List Nat) : List Nat :=
  (l.map (fun t => [t &&& 0b11110000, t >>> 4])).flatten

/-- LSB-first, byte-sequential packing: the inverse direction of the
bit-unpacker as the spec describes it (§4.2, §8 round-trip property).  The
low bit of the stream goes into the low bit of the first byte. -/
def byteOfBits (bs : List Bool) : Nat :=
  bs.foldr (fun b acc => (if b then 1 else 0) + 2 * acc) 0

/-- Group a bit stream into bytes of eight bits, low bit first; a final
incomplete byte is zero-padded at the top. -/
def bitsToBytes : List Bool → List Nat
  | b0 :: b1 :: b2 :: b3 :: b4 :: b5 :: b6 :: b7 :: rest =>
      byteOfBits [b0, b1, b2, b3, b4, b5, b6, b7] :: bitsToBytes rest
  | [] => []
  | rest => [byteOfBits rest]

/-- Pack a sequence of values, `bitsPerEntry` bits each, LSB-first within
each value and byte-sequential: the inverse of the bit-unpacker in the
spec's sense. -/
def pack (bitsPerEntry : Nat) (vals : List Nat) : List Nat :=
  bitsToBytes ((vals.map (fun v => (List.range bitsPerEntry).map (fun j => v.testBit j))).flatten)

/-- The endianness-normalization loop of `Section::Parse` (lines 52–54):
the buffer is reinterpreted as 64-bit words and each of the first
`len / 8` words is byte-swapped in place; `endswap` itself (from
`Utility.hpp`, not under `src/`) is modelled from the spec, §4.1:
"reinterprets it as a sequence of 64-bit unsigned words and byte-swaps each
word", i.e. each complete 8-byte group is reversed and any trailing
incomplete group is left untouched. -/
def endianSwap : List Nat → List Nat
  | b0 :: b1 :: b2 :: b3 :: b4 :: b5 :: b6 :: b7 :: rest =>
      b7 :: b6 :: b5 :: b4 :: b3 :: b2 :: b1 :: b0 :: endianSwap rest
  | rest => rest

/-- The chunk-section state: the raw buffers (`nullptr` is `none`), the
palette, the bit width, and the `m_blocks` voxel vector.  `m_dataBlocksLen`
is the length of the list under `m_dataBlocks` (the source keeps the two in
lock-step: the length is zeroed exactly when the pointer is nulled). -/
structure Section where
  worldPosition : Vec
  m_dataBlocks : Option (List Nat)
  m_dataLight : Option (List Nat)
  m_dataSkyLight : Option (List Nat)
  m_palette : List Nat
  m_bitsPerBlock : Nat
  m_blocks : List Block
deriving DecidableEq, Inhabited

/-- The constructor `Section::Section` (lines 4–23): deep-copies the block
buffer, the 2048-byte light buffer and, when given, the 2048-byte sky-light
buffer, stores the palette and the bit width; `m_blocks` starts empty. -/
def mkSection (position : Vec) (dataBlocks : List Nat) (dataLight : List Nat)
    (dataSky : Option (List Nat)) (bitsPerBlock : Nat) (palette : List Nat) : Section :=
  { worldPosition := position
    m_dataBlocks := some dataBlocks
    m_dataLight := some dataLight
    m_dataSkyLight := dataSky
    m_palette := palette
    m_bitsPerBlock := bitsPerBlock
    m_blocks := [] }

/-- Outcome of one call to `Section::Parse`: normal return with the new
section state, `throw 118` with the observable section state at the throw
(line 89), or undefined behaviour from an out-of-bounds buffer or vector
access. -/
inductive ParseOutcome where
  | ok (s : Section)
  | thrown (s : Section)
  | ub
deriving DecidableEq, Inhabited

/-- The voxel-construction loop of `Section::Parse` (lines 83–87) on the
first 4096 decoded local indices: resolve through the palette
(`m_palette.size() > 0 ? m_palette[blocks[i]] : blocks[i]`) and split the
global id into `Block(blockId >> 4, blockId & 0xF)`. -/
def resolveBlocks (palette : List Nat) (blocks : List Nat) : List Block :=
  (blocks.take 4096).map (fun i =>
    let blockId := if 0 < palette.length then palette.getD i 0 else i
    Block.mk (blockId >>> 4) (blockId &&& 0xF))

/-- `Section::Parse` after the raw buffers have been turned into the
decoded index list `blocks` (lines 57–72) and the light list `light`
(lines 74–82): the loop at lines 83–87 unconditionally reads `blocks[i]`
for `i = 0..4095` and indexes the palette without a bounds check (`.ub` on
either out-of-range access), appends the voxels to the member `m_blocks`,
and only then runs the consistency check
`(light.size() + blocks.size()) / 2 != 4096` (line 88), throwing while the
voxels are already appended and the raw buffers still held (the block
buffer's bytes having been consumed to zero by the shifts at line 63); on
success (lines 91–97) the three raw buffers are released. -/
def parseFinish (s : Section) (dataLen : Nat) (blocks light : List Nat) : ParseOutcome :=
  if blocks.length < 4096 then .ub
  else if 0 < s.m_palette.length ∧
      (blocks.take 4096).any (fun i => decide (s.m_palette.length ≤ i)) then .ub
  else if (light.length + blocks.length) / 2 ≠ 4096 then
    .thrown { s with m_dataBlocks := some (List.replicate dataLen 0)
                     m_blocks := s.m_blocks ++ resolveBlocks s.m_palette blocks }
  else
    .ok { s with m_dataBlocks := none
                 m_dataLight := none
                 m_dataSkyLight := none
                 m_blocks := s.m_blocks ++ resolveBlocks s.m_palette blocks }

/-- `Section::Parse` (lines 48–100).  Early return when already decoded
(line 49–50).  Otherwise endian-normalize and bit-unpack the block buffer,
light-unpack `m_dataLight` (reading exactly indices `0..2047`; undefined
if the buffer is missing or shorter), and finish with `parseFinish`.  The
sky-light buffer is never read, only released on success. -/
def Section.Parse (s : Section) : ParseOutcome :=
  match s.m_dataBlocks with
  | none => .ok s
  | some data =>
    match s.m_dataLight with
    | none => .ub
    | some lb =>
      if lb.length < 2048 then .ub
      else parseFinish s data.length
        (bitUnpack s.m_bitsPerBlock (endianSwap data)) (lightExpand (lb.take 2048))

/-- The buffers fed to the light-unpacking loop during one `Parse` call on
a pending section: exactly one loop runs (lines 76–82) and it reads
`m_dataLight[0..2047]` only; no loop ever reads `m_dataSkyLight`. -/
def Section.ParseLightInputs (s : Section) : List (List Nat) :=
  match s.m_dataBlocks with
  | none => []
  | some _ =>
    match s.m_dataLight with
    | none => []
    | some lb => [lb.take 2048]

/-- `Section::GetBlock` (lines 35–46): while `m_dataBlocks` is non-null the
call waits (no value is returned — modelled as `none`); once decoded it
indexes `m_blocks[y*256 + z*16 + x]` without a bounds check (`none` models
the out-of-range or negative-index access that returns no valid value). -/
def Section.GetBlock (s : Section) (pos : Vec) : Option Block :=
  match s.m_dataBlocks with
  | some _ => none
  | none =>
    let idx : Int := pos.y * 256 + pos.z * 16 + pos.x
    if idx < 0 then none else s.m_blocks[idx.toNat]?

/-- `Section::GetPosition` (lines 136–138). -/
def Section.GetPosition (s : Section) : Vec :=
  s.worldPosition

/-- The copy constructor `Section::Section(const Section &)` (lines
118–134): allocates and copies `m_dataBlocksLen` bytes of block data (a
decoded source has length 0 and a null pointer, and `new byte[0]` is a
valid non-null allocation, so the copy's block buffer is present but
empty), then unconditionally copies 2048 bytes from `other.m_dataLight` —
undefined behaviour (`none`) when that buffer is null or shorter — then
the sky buffer when present, the palette and the bit width.  `m_blocks`
is never copied: the copy's voxel vector is default-constructed empty. -/
def Section.copy (other : Section) : Option Section :=
  match other.m_dataLight with
  | none => none
  | some lb =>
    if lb.length < 2048 then none
    else if (other.m_dataSkyLight.getD []).length < 2048 ∧ other.m_dataSkyLight ≠ none then none
    else some
      { worldPosition := other.worldPosition
        m_dataBlocks := some (other.m_dataBlocks.getD [])
        m_dataLight := some (lb.take 2048)
        m_dataSkyLight := other.m_dataSkyLight.map (fun sb => sb.take 2048)
        m_palette := other.m_palette
        m_bitsPerBlock := other.m_bitsPerBlock
        m_blocks := [] }

/-- "Exactly one of {raw buffers present, decoded voxel array present}"
(spec §3): the section is pending (raw block data present, no voxels) or
decoded (no raw block data, voxels present), never both, never neither. -/
def SectionInv (s : Section) : Prop :=
  (s.m_dataBlocks ≠ none ∧ s.m_blocks = []) ∨ (s.m_dataBlocks = none ∧ s.m_blocks ≠ [])

/-! ### Concrete sections used by the witnesses and counterexamples -/

/-- A pending section over 512 zero bytes at width 1: `8 * 512 / 1 = 4096`
entries, so `Parse` succeeds. -/
def zeroSec512 : Section :=
  mkSection default (List.replicate 512 0) (List.replicate 2048 0) none 1 []

/-- The decoded state `Parse` produces from `zeroSec512`. -/
def zeroSec512Parsed : Section :=
  { worldPosition := default
    m_dataBlocks := none
    m_dataLight := none
    m_dataSkyLight := none
    m_palette := []
    m_bitsPerBlock := 1
    m_blocks := List.replicate 4096 (Block.mk 0 0) }

/-- A pending section over 520 zero bytes at width 1: `8 * 520 / 1 = 4160`
entries, so the consistency check `(4096 + 4160) / 2 != 4096` throws. -/
def zeroSec520 : Section :=
  mkSection default (List.replicate 520 0) (List.replicate 2048 0) none 1 []

/-- A pending section over 8 zero bytes (a multiple of 8) at width 1: only
64 entries decode, so the loop at lines 83–87 reads out of range. -/
def zeroSec8 : Section :=
  mkSection default (List.replicate 8 0) (List.replicate 2048 0) none 1 []

/-- A pending section carrying a sky-light buffer full of `0xFF`. -/
def skySec : Section :=
  mkSection default (List.replicate 2048 0) (List.replicate 2048 0)
    (some (List.replicate 2048 255)) 4 []

/-- The resolved global identifier of spec §4.3 for the entry at one
index of the decoded local-index list: `palette[i]` if the palette is
non-empty, else `i` itself (out-of-range indexing modelled with the
default 0, as in `resolveBlocks`). -/
def resolvedGlobalId (palette blocks : List Nat) (idx : Nat) : Nat :=
  let i := blocks.getD idx 0
  if palette = [] then i else palette.getD i 0

example : bitUnpack 4 [240] = [0, 15] := by decide
example : bitUnpack 5 [255] = [7] := by decide
example : bitUnpack 1 [2] = [0, 64, 0, 0, 0, 0, 0, 0] := by decide
example : lightExpand [0xAB] = [0xA0, 0x0A] := by decide
example : pack 4 [15, 0] = [15] := by decide
example : bitUnpack 5 (pack 5 [1, 1, 1, 1, 1, 1, 1, 1]) = [0, 0, 0, 0, 0, 0, 0, 0] := by decide

/-! ### Evaluation lemmas

Closed-form values of the decoding stages on all-zero buffers; these let
the concrete witnesses below be checked without unfolding tens of
thousands of kernel reduction steps. -/

theorem byteBits_zero : byteBits 0 = List.replicate 8 false := by decide

theorem flatten_byteBits_replicate_zero (k : Nat) :
    ((List.replicate k 0).map byteBits).flatten = List.replicate (8 * k) false := by
  induction k with
  | zero => rfl
  | succ k ih =>
    rw [List.replicate_succ, List.map_cons, List.flatten_cons, ih, byteBits_zero,
      show 8 * (k + 1) = 8 + 8 * k by ring, List.replicate_add]

theorem unpack_foldl_false (n : Nat) (hn : 1 ≤ n) :
    ∀ (m bp : Nat) (acc : List Nat), bp < n →
      (List.replicate m false).foldl (unpackStep n) ⟨bp, 0, acc⟩ =
        ⟨(bp + m) % n, 0, List.replicate ((bp + m) / n) 0 ++ acc⟩ := by
  intro m
  induction m with
  | zero =>
    intro bp acc hbp
    simp [Nat.mod_eq_of_lt hbp, Nat.div_eq_of_lt hbp]
  | succ m ih =>
    intro bp acc hbp
    rw [List.replicate_succ, List.foldl_cons]
    have hstep : unpackStep n ⟨bp, 0, acc⟩ false =
        if bp + 1 ≥ n then ⟨0, 0, 0 :: acc⟩ else ⟨bp + 1, 0, acc⟩ := by
      simp [unpackStep]
    rw [hstep]
    by_cases hc : bp + 1 ≥ n
    · have hbpn : bp + 1 = n := by omega
      rw [if_pos hc, ih 0 (0 :: acc) (by omega)]
      have e1 : bp + (m + 1) = n + m := by omega
      have e2 : (n + m) % n = (0 + m) % n := by
        rw [Nat.add_mod_left, Nat.zero_add]
      have e3 : (n + m) / n = (0 + m) / n + 1 := by
        rw [Nat.zero_add, Nat.add_comm n m, Nat.add_div_right _ (by omega)]
      rw [e1, e2, e3, List.replicate_succ']
      simp
    · rw [if_neg hc, ih (bp + 1) acc (by omega)]
      have e : bp + 1 + m = bp + (m + 1) := by omega
      rw [e]

theorem bitUnpack_replicate_zero (n k : Nat) (hn : 1 ≤ n) :
    bitUnpack n (List.replicate k 0) = List.replicate (8 * k / n) 0 := by
  rw [bitUnpack, flatten_byteBits_replicate_zero,
    unpack_foldl_false n hn (8 * k) 0 [] (by omega)]
  simp [List.reverse_replicate]

theorem endianSwap_replicate_zero : ∀ k, endianSwap (List.replicate k 0) = List.replicate k 0 := by
  intro k
  induction k using Nat.strong_induction_on with
  | _ k ih =>
    rcases Nat.lt_or_ge k 8 with h | h
    · interval_cases k <;> rfl
    · obtain ⟨m, rfl⟩ : ∃ m, k = 8 + m := ⟨k - 8, by omega⟩
      rw [List.replicate_add]
      show 0 :: 0 :: 0 :: 0 :: 0 :: 0 :: 0 :: 0 :: endianSwap (List.replicate m 0) =
        List.replicate 8 0 ++ List.replicate m 0
      rw [ih m (by omega)]
      rfl

theorem lightExpand_replicate_zero : ∀ k, lightExpand (List.replicate k 0) = List.replicate (2 * k) 0 := by
  intro k
  induction k with
  | zero => rfl
  | succ k ih =>
    rw [List.replicate_succ, lightExpand, List.map_cons, List.flatten_cons]
    rw [lightExpand] at ih
    rw [ih, show 2 * (k + 1) = 2 * k + 1 + 1 by ring, List.replicate_succ, List.replicate_succ]
    rfl

theorem resolveBlocks_nil_replicate_zero (b : Nat) (hb : 4096 ≤ b) :
    resolveBlocks [] (List.replicate b 0) = List.replicate 4096 (Block.mk 0 0) := by
  rw [resolveBlocks, List.take_replicate, List.map_replicate, Nat.min_eq_left hb]
  rfl

/-- After ORing a bit into position 7 and shifting right once, the
accumulator is below `0x80`. -/
theorem lor_bit_shift_lt (t : Nat) (b : Bool) (ht : t < 128) :
    ((t ||| (if b then 0x80 else 0x00)) >>> 1) < 128 := by
  have hor : (t ||| (if b then 0x80 else 0x00)) < 256 := by
    have h1 : t < 2 ^ 8 := by omega
    have h2 : (if b then 0x80 else 0x00) < 2 ^ 8 := by cases b <;> norm_num
    calc t ||| (if b then 0x80 else 0x00) < 2 ^ 8 := Nat.bitwise_lt_two_pow h1 h2
    _ = 256 := by norm_num
  rw [Nat.shiftRight_eq_div_pow]
  omega

/-- The accumulator `t` of the bit-unpacking loop stays below `0x80`:
each iteration ORs in at most `0x80` and immediately shifts right. -/
theorem unpackStep_t_lt (n : Nat) (s : UnpackState) (b : Bool) (ht : s.t < 128) :
    (unpackStep n s b).t < 128 := by
  rw [unpackStep]
  by_cases hc : s.bitPos + 1 ≥ n
  · rw [if_pos hc]
    show (0:Nat) < 128
    norm_num
  · rw [if_neg hc]
    exact lor_bit_shift_lt s.t b ht

/-- A value emitted by the bit-unpacking loop is the sub-`0x80` accumulator
shifted right another `bitsPerBlock - 1` places, so it is below
`2 ^ (8 - bitsPerBlock)` (truncated subtraction: below `2 ^ 0 = 1`, that
is zero, once `bitsPerBlock ≥ 8`). -/
theorem emit_lt_two_pow (n t : Nat) (hn : 1 ≤ n) (ht : t < 128) :
    t >>> (n - 1) < 2 ^ (8 - n) := by
  rw [Nat.shiftRight_eq_div_pow]
  rcases le_or_lt n 8 with h | h
  · apply Nat.div_lt_of_lt_mul
    calc t < 128 := ht
    _ = 2 ^ (8 - n) * 2 ^ (n - 1) := by
      rw [← pow_add, show 8 - n + (n - 1) = 7 by omega]
      norm_num
    _ = 2 ^ (n - 1) * 2 ^ (8 - n) := by ring
  · have h7 : t < 2 ^ (n - 1) := by
      calc t < 128 := ht
      _ = 2 ^ 7 := by norm_num
      _ ≤ 2 ^ (n - 1) := Nat.pow_le_pow_right (by omega) (by omega)
    rw [Nat.div_eq_of_lt h7]
    exact Nat.pos_pow_of_pos _ (by omega)

theorem unpack_foldl_bound (n : Nat) (hn : 1 ≤ n) (bits : List Bool) :
    ∀ s : UnpackState, s.t < 128 → (∀ v ∈ s.outRev, v < 2 ^ (8 - n)) →
      (bits.foldl (unpackStep n) s).t < 128 ∧
        ∀ v ∈ (bits.foldl (unpackStep n) s).outRev, v < 2 ^ (8 - n) := by
  induction bits with
  | nil => intro s ht hout; exact ⟨ht, hout⟩
  | cons b bits ih =>
    intro s ht hout
    rw [List.foldl_cons]
    apply ih
    · exact unpackStep_t_lt n s b ht
    · intro v hv
      rw [unpackStep] at hv
      by_cases hc : s.bitPos + 1 ≥ n
      · rw [if_pos hc] at hv
        rcases List.mem_cons.mp hv with h | h
        · subst h
          exact emit_lt_two_pow n _ hn (lor_bit_shift_lt s.t b ht)
        · exact hout v h
      · rw [if_neg hc] at hv
        exact hout v hv

theorem byteBits_byteOfBits (b0 b1 b2 b3 b4 b5 b6 b7 : Bool) :
    byteBits (byteOfBits [b0, b1, b2, b3, b4, b5, b6, b7]) = [b0, b1, b2, b3, b4, b5, b6, b7] := by
  revert b0 b1 b2 b3 b4 b5 b6 b7
  decide

/-- Packing a bit stream into bytes and unpacking the bytes bit by bit,
LSB first, gives back the stream (when it is byte-aligned). -/
theorem flatten_byteBits_bitsToBytes :
    ∀ (m : Nat) (bits : List Bool), bits.length = 8 * m →
      ((bitsToBytes bits).map byteBits).flatten = bits := by
  intro m
  induction m with
  | zero =>
    intro bits h
    have hb : bits = [] := List.length_eq_zero.mp (by omega)
    subst hb
    rfl
  | succ m ih =>
    intro bits h
    rcases bits with _ | ⟨b0, _ | ⟨b1, _ | ⟨b2, _ | ⟨b3, _ | ⟨b4, _ | ⟨b5, _ | ⟨b6, _ | ⟨b7, rest⟩⟩⟩⟩⟩⟩⟩⟩
    all_goals simp only [List.length_cons, List.length_nil] at h
    all_goals try omega
    rw [show bitsToBytes (b0 :: b1 :: b2 :: b3 :: b4 :: b5 :: b6 :: b7 :: rest) =
          byteOfBits [b0, b1, b2, b3, b4, b5, b6, b7] :: bitsToBytes rest from rfl]
    rw [List.map_cons, List.flatten_cons, byteBits_byteOfBits, ih rest (by omega)]
    rfl

theorem length_flatten_replicate {α : Type} (m : Nat) (l : List α) :
    (List.replicate m l).flatten.length = m * l.length := by
  induction m with
  | zero => simp
  | succ m ih =>
    rw [List.replicate_succ, List.flatten_cons, List.length_append, ih]
    ring

/-- Unpacking at width 5 maps each packed group `[true, false, false,
false, false]` (the LSB-first encoding of the value 1) to the emitted
value 0: the set bit is shifted below bit 0 before emission. -/
theorem foldl_width5_one (m : Nat) :
    ∀ acc, (List.replicate m [true, false, false, false, false]).flatten.foldl
        (unpackStep 5) ⟨0, 0, acc⟩ = ⟨0, 0, List.replicate m 0 ++ acc⟩ := by
  induction m with
  | zero => intro acc; rfl
  | succ m ih =>
    intro acc
    rw [List.replicate_succ, List.flatten_cons, List.foldl_append]
    rw [show List.foldl (unpackStep 5) ⟨0, 0, acc⟩ [true, false, false, false, false] =
          (⟨0, 0, 0 :: acc⟩ : UnpackState) from by simp [unpackStep]]
    rw [ih (0 :: acc), List.replicate_succ', List.append_assoc]
    rfl

theorem lightExpand_length (l : List Nat) : (lightExpand l).length = 2 * l.length := by
  induction l with
  | nil => rfl
  | cons x l ih =>
    rw [lightExpand, List.map_cons, List.flatten_cons, List.length_append]
    rw [lightExpand] at ih
    rw [ih, List.length_cons]
    simp only [List.length_cons, List.length_nil]
    omega

theorem lightExpand_getElem (l : List Nat) :
    ∀ i, i < l.length →
      (lightExpand l)[2 * i]? = some (l.getD i 0 &&& 0b11110000) ∧
      (lightExpand l)[2 * i + 1]? = some (l.getD i 0 >>> 4) := by
  induction l with
  | nil =>
    intro i hi
    simp at hi
  | cons x l ih =>
    intro i hi
    rw [lightExpand, List.map_cons, List.flatten_cons]
    simp only [List.cons_append, List.nil_append]
    cases i with
    | zero => exact ⟨rfl, by simp⟩
    | succ i =>
      have e1 : 2 * (i + 1) = 2 * i + 1 + 1 := by ring
      rw [e1, List.getElem?_cons_succ, List.getElem?_cons_succ,
        List.getElem?_cons_succ, List.getElem?_cons_succ, List.getD_cons_succ]
      rw [lightExpand] at ih
      exact ih i (by simp at hi; omega)

theorem resolveBlocks_length (p blocks : List Nat) (h : 4096 ≤ blocks.length) :
    (resolveBlocks p blocks).length = 4096 := by
  rw [resolveBlocks, List.length_map, List.length_take]
  omega

/-- What a `Parse` call that returns normally on a pending section must
have seen and produced. -/
theorem Parse_ok_inversion (s : Section) (data : List Nat) (s' : Section)
    (hd : s.m_dataBlocks = some data) (hok : s.Parse = ParseOutcome.ok s') :
    ∃ lb, s.m_dataLight = some lb ∧ 2048 ≤ lb.length ∧
      4096 ≤ (bitUnpack s.m_bitsPerBlock (endianSwap data)).length ∧
      ((lightExpand (lb.take 2048)).length +
          (bitUnpack s.m_bitsPerBlock (endianSwap data)).length) / 2 = 4096 ∧
      s' = { s with m_dataBlocks := none
                    m_dataLight := none
                    m_dataSkyLight := none
                    m_blocks := s.m_blocks ++
                      resolveBlocks s.m_palette (bitUnpack s.m_bitsPerBlock (endianSwap data)) } := by
  rw [Section.Parse.eq_def, hd] at hok
  cases hl : s.m_dataLight with
  | none =>
    rw [hl] at hok
    exact absurd hok (by simp)
  | some lb =>
    rw [hl] at hok
    dsimp only at hok
    by_cases h1 : lb.length < 2048
    · rw [if_pos h1] at hok
      exact absurd hok (by simp)
    · rw [if_neg h1, parseFinish] at hok
      by_cases h2 : (bitUnpack s.m_bitsPerBlock (endianSwap data)).length < 4096
      · rw [if_pos h2] at hok
        exact absurd hok (by simp)
      · rw [if_neg h2] at hok
        split_ifs at hok with hp h3
        injection hok with h5
        exact ⟨lb, rfl, by omega, by omega, by omega, h5.symm⟩

/-- What a `Parse` call that throws on a pending section must have seen,
and the observable section state at the throw. -/
theorem Parse_thrown_inversion (s : Section) (data : List Nat) (t : Section)
    (hd : s.m_dataBlocks = some data) (hth : s.Parse = ParseOutcome.thrown t) :
    ∃ lb, s.m_dataLight = some lb ∧ 2048 ≤ lb.length ∧
      4096 ≤ (bitUnpack s.m_bitsPerBlock (endianSwap data)).length ∧
      ((lightExpand (lb.take 2048)).length +
          (bitUnpack s.m_bitsPerBlock (endianSwap data)).length) / 2 ≠ 4096 ∧
      t = { s with m_dataBlocks := some (List.replicate data.length 0)
                   m_blocks := s.m_blocks ++
                     resolveBlocks s.m_palette (bitUnpack s.m_bitsPerBlock (endianSwap data)) } := by
  rw [Section.Parse.eq_def, hd] at hth
  cases hl : s.m_dataLight with
  | none =>
    rw [hl] at hth
    exact absurd hth (by simp)
  | some lb =>
    rw [hl] at hth
    dsimp only at hth
    by_cases h1 : lb.length < 2048
    · rw [if_pos h1] at hth
      exact absurd hth (by simp)
    · rw [if_neg h1, parseFinish] at hth
      by_cases h2 : (bitUnpack s.m_bitsPerBlock (endianSwap data)).length < 4096
      · rw [if_pos h2] at hth
        exact absurd hth (by simp)
      · rw [if_neg h2] at hth
        split_ifs at hth with hp h3
        injection hth with h5
        exact ⟨lb, rfl, by omega, by omega, h3, by rw [← h5, hl]⟩

/-- One `Parse` call on a freshly constructed all-zero section with an
empty palette, in closed form: only the entry count `8 * dlen / n` decides
between the out-of-bounds read, the failed consistency check, and success. -/
theorem Parse_mk_zero (pos : Vec) (sky : Option (List Nat)) (dlen n : Nat) (hn : 1 ≤ n) :
    Section.Parse (mkSection pos (List.replicate dlen 0) (List.replicate 2048 0) sky n []) =
      if 8 * dlen / n < 4096 then ParseOutcome.ub
      else if (2 * 2048 + 8 * dlen / n) / 2 ≠ 4096 then
        ParseOutcome.thrown
          { worldPosition := pos
            m_dataBlocks := some (List.replicate dlen 0)
            m_dataLight := some (List.replicate 2048 0)
            m_dataSkyLight := sky
            m_palette := []
            m_bitsPerBlock := n
            m_blocks := List.replicate 4096 (Block.mk 0 0) }
      else
        ParseOutcome.ok
          { worldPosition := pos
            m_dataBlocks := none
            m_dataLight := none
            m_dataSkyLight := none
            m_palette := []
            m_bitsPerBlock := n
            m_blocks := List.replicate 4096 (Block.mk 0 0) } := by
  rw [Section.Parse.eq_def]
  simp only [mkSection, List.length_replicate]
  rw [if_neg (by omega), endianSwap_replicate_zero, bitUnpack_replicate_zero n dlen hn,
    List.take_replicate, Nat.min_self, lightExpand_replicate_zero, parseFinish]
  simp only [List.length_replicate, List.length_nil, mkSection]
  by_cases h1 : 8 * dlen / n < 4096
  · rw [if_pos h1, if_pos h1]
  · rw [if_neg h1, if_neg h1, if_neg (by omega),
      resolveBlocks_nil_replicate_zero _ (by omega), List.nil_append]

theorem Parse_zeroSec512 : Section.Parse zeroSec512 = ParseOutcome.ok zeroSec512Parsed := by
  rw [zeroSec512, Parse_mk_zero default none 512 1 (by norm_num), zeroSec512Parsed]
  norm_num

/-! ### The claims -/

/-- C9 (confirmed): for every input buffer and every `bitsPerBlock ≥ 1`,
each value emitted by the bit-unpacking loop of `Section::Parse` is below
`2 ^ (8 - bitsPerBlock)` when `bitsPerBlock ≤ 8` — hence always below 256
whatever the encoded width — and is exactly 0 once `bitsPerBlock ≥ 8`:
bits enter the accumulator only at bit position 7 and the accumulator is
shifted right `bitsPerBlock - 1` further positions before emission. -/
theorem c9_bitUnpack_range (n : Nat) (data : List Nat) (v : Nat)
    (hn : 1 ≤ n) (hv : v ∈ bitUnpack n data) :
    (n ≤ 8 → v < 2 ^ (8 - n)) ∧ v < 256 ∧ (8 ≤ n → v = 0) := by
  have hb : v < 2 ^ (8 - n) := by
    rw [bitUnpack, List.mem_reverse] at hv
    exact (unpack_foldl_bound n hn _ ⟨0, 0, []⟩ (by norm_num) (by simp)).2 v hv
  refine ⟨fun _ => hb, ?_, fun h8 => ?_⟩
  · calc v < 2 ^ (8 - n) := hb
    _ ≤ 2 ^ 8 := Nat.pow_le_pow_right (by omega) (by omega)
    _ = 256 := by norm_num
  · rw [show (8:Nat) - n = 0 by omega, pow_zero] at hb
    omega

theorem c9_bitUnpack_range_witness :
    ((5:Nat) ≤ 8 → (7:Nat) < 2 ^ (8 - 5)) ∧ (7:Nat) < 256 ∧ ((8:Nat) ≤ 5 → (7:Nat) = 0) :=
  c9_bitUnpack_range 5 [255] 7 (by norm_num) (by decide)

/-- C2 (code bug): the LSB-first packing of 4096 copies of the value 1 at
width 5, decoded by the bit-unpacking loop, yields 4096 zeros instead of
the original values — the unpacker discards the low `2*width - 8` bits of
every entry, so the spec's round-trip property fails for width 5 (and for
every listed width except 4). -/
theorem c2_roundTrip_width5_fails :
    bitUnpack 5 (pack 5 (List.replicate 4096 1)) = List.replicate 4096 0 ∧
      List.replicate 4096 (0:Nat) ≠ List.replicate 4096 1 := by
  constructor
  · rw [pack, List.map_replicate]
    rw [show (List.range 5).map (fun j => Nat.testBit 1 j) =
          [true, false, false, false, false] from by decide]
    rw [bitUnpack, flatten_byteBits_bitsToBytes 2560 _
      (by rw [length_flatten_replicate]; decide)]
    rw [foldl_width5_one 4096 [], List.append_nil]
    show (List.replicate 4096 (0:Nat)).reverse = List.replicate 4096 0
    rw [List.reverse_replicate]
  · intro h
    have h0 := congrArg List.head? h
    rw [List.head?_replicate, List.head?_replicate] at h0
    norm_num at h0

/-- C5 counterexample: the light-unpacking step does not map the byte
`0xAB` to the pair `(0xA0, 0xB0)` claimed by the spec. -/
theorem c5_lightExpand_AB_counterexample : ¬ (lightExpand [0xAB] = [0xA0, 0xB0]) := by
  decide

/-- C5 (corrected): the light-unpacking step maps the input byte `0xAB` to
the pair `(0xA0, 0x0A)`: the high nibble is kept in the high position for
the first emitted value and shifted down to the LOW position for the
second; the low nibble `0xB` is discarded entirely. -/
theorem c5_lightExpand_AB : lightExpand [0xAB] = [0xA0, 0x0A] := by
  decide

/-- C1 (confirmed): after a successful `Parse` of a freshly constructed
section, `GetBlock` at any local position with coordinates in `[0,16)`
returns — without waiting — exactly the voxel stored at index
`y*256 + z*16 + x` of the decoded array, and that voxel is
`Block(g >> 4, g & 0xF)` for the resolved global identifier `g` of the
bit-unpacker's output at that index (`palette[i]` for a non-empty
palette, `i` itself for an empty one). -/
theorem c1_GetBlock_decoded (pos : Vec) (data lb : List Nat) (sky : Option (List Nat))
    (n : Nat) (palette : List Nat) (s' : Section) (x y z : Nat)
    (hx : x < 16) (hy : y < 16) (hz : z < 16)
    (hok : (mkSection pos data lb sky n palette).Parse = ParseOutcome.ok s') :
    s'.GetBlock ⟨(x : Int), (y : Int), (z : Int)⟩ = s'.m_blocks[y * 256 + z * 16 + x]? ∧
    s'.GetBlock ⟨(x : Int), (y : Int), (z : Int)⟩ =
      some (Block.mk
        (resolvedGlobalId palette (bitUnpack n (endianSwap data)) (y * 256 + z * 16 + x) >>> 4)
        (resolvedGlobalId palette (bitUnpack n (endianSwap data)) (y * 256 + z * 16 + x) &&& 0xF)) := by
  obtain ⟨lb2, hl, hlen, hB, hchk, hs'⟩ :=
    Parse_ok_inversion (mkSection pos data lb sky n palette) data s' rfl hok
  dsimp only [mkSection] at hB hs'
  subst hs'
  rw [Section.GetBlock.eq_def]
  dsimp only [mkSection]
  rw [if_neg (by omega), show ((y:Int) * 256 + (z:Int) * 16 + (x:Int)).toNat =
    y * 256 + z * 16 + x from by omega]
  refine ⟨rfl, ?_⟩
  have hk : y * 256 + z * 16 + x < 4096 := by omega
  have hkB : y * 256 + z * 16 + x < (bitUnpack n (endianSwap data)).length := by omega
  have hgd : (bitUnpack n (endianSwap data)).getD (y * 256 + z * 16 + x) 0 =
      (bitUnpack n (endianSwap data))[y * 256 + z * 16 + x] := by
    rw [List.getD_eq_getElem?_getD, List.getElem?_eq_getElem hkB, Option.getD_some]
  rw [List.nil_append, resolveBlocks, List.getElem?_map, List.getElem?_take, if_pos hk,
    List.getElem?_eq_getElem hkB]
  rcases palette with _ | ⟨p, ps⟩
  · simp [resolvedGlobalId, List.getElem?_eq_getElem hkB]
  · simp [resolvedGlobalId, List.getElem?_eq_getElem hkB]

theorem c1_GetBlock_decoded_witness :
    Section.GetBlock zeroSec512Parsed ⟨((1:Nat):Int), ((2:Nat):Int), ((3:Nat):Int)⟩ =
      some (Block.mk 0 0) := by
  have h := (c1_GetBlock_decoded default (List.replicate 512 0) (List.replicate 2048 0) none 1 []
    zeroSec512Parsed 1 2 3 (by norm_num) (by norm_num) (by norm_num) Parse_zeroSec512).2
  rw [h, endianSwap_replicate_zero, bitUnpack_replicate_zero 1 512 (by norm_num),
    resolvedGlobalId]
  rw [List.getD_eq_getElem?_getD, List.getElem?_replicate, if_pos (by norm_num)]
  rfl

/-- C3 counterexample: on the concrete pending section `zeroSec520` the
claim "when Parse fails the decoded voxel array is not published and the
raw buffers remain the sole representation" is false: the failing `Parse`
leaves a state with the 4096 voxels appended while the raw block buffer is
still present, so the exactly-one invariant does not hold there. -/
theorem c3_invariant_counterexample :
    ¬ (∀ t, Section.Parse zeroSec520 = ParseOutcome.thrown t → t.m_blocks = [] ∧ SectionInv t) := by
  intro hclaim
  have h := hclaim
    { worldPosition := default
      m_dataBlocks := some (List.replicate 520 0)
      m_dataLight := some (List.replicate 2048 0)
      m_dataSkyLight := none
      m_palette := []
      m_bitsPerBlock := 1
      m_blocks := List.replicate 4096 (Block.mk 0 0) }
    (by rw [zeroSec520, Parse_mk_zero default none 520 1 (by norm_num)]; norm_num)
  have hne : (List.replicate 4096 (Block.mk 0 0)) ≠ ([] : List Block) := by
    intro he
    have hlen := congrArg List.length he
    rw [List.length_replicate, List.length_nil] at hlen
    omega
  exact hne h.1

/-- C3 (corrected): construction, successful `Parse`, `Parse` on an
already-decoded section, and copy-construction each yield a state
satisfying the exactly-one invariant; but a `Parse` that fails the
consistency check does not leave the section unchanged: at the throw the
4096 resolved voxels have already been appended to the member array while
the raw buffers are still held (the block buffer zeroed in place), so both
representations are present and the decode is not all-or-nothing. -/
theorem c3_invariant_states :
    (∀ (pos : Vec) (d l : List Nat) (sky : Option (List Nat)) (n : Nat) (p : List Nat),
      SectionInv (mkSection pos d l sky n p)) ∧
    (∀ (s : Section) (data : List Nat) (s' : Section), s.m_dataBlocks = some data →
      s.m_blocks = [] → s.Parse = ParseOutcome.ok s' → SectionInv s') ∧
    (∀ s : Section, s.m_dataBlocks = none → s.Parse = ParseOutcome.ok s) ∧
    (∀ (s c : Section), Section.copy s = some c → SectionInv c) ∧
    (∀ (s : Section) (data : List Nat) (t : Section), s.m_dataBlocks = some data →
      s.Parse = ParseOutcome.thrown t → t.m_dataBlocks ≠ none ∧ t.m_blocks ≠ []) := by
  refine ⟨?_, ?_, ?_, ?_, ?_⟩
  · intro pos d l sky n p
    exact Or.inl ⟨by simp [mkSection], by simp [mkSection]⟩
  · intro s data s' hd hempty hok
    obtain ⟨lb, hl, hlen, hB, hchk, hs'⟩ := Parse_ok_inversion s data s' hd hok
    subst hs'
    refine Or.inr ⟨rfl, ?_⟩
    rw [hempty, List.nil_append]
    intro he
    have := congrArg List.length he
    rw [resolveBlocks_length _ _ hB] at this
    simp at this
  · intro s hd
    rw [Section.Parse.eq_def, hd]
  · intro s c hc
    rw [Section.copy.eq_def] at hc
    cases hl : s.m_dataLight with
    | none => rw [hl] at hc; exact absurd hc (by simp)
    | some lb =>
      rw [hl] at hc
      dsimp only at hc
      split_ifs at hc with h1 h2
      injection hc with hc
      subst hc
      exact Or.inl ⟨by simp, rfl⟩
  · intro s data t hd hth
    obtain ⟨lb, hl, hlen, hB, hchk, ht⟩ := Parse_thrown_inversion s data t hd hth
    subst ht
    refine ⟨by simp, ?_⟩
    intro he
    have := congrArg List.length he
    rw [List.length_append, resolveBlocks_length _ _ hB] at this
    simp at this

theorem c3_invariant_states_witness : SectionInv zeroSec512Parsed :=
  c3_invariant_states.2.1 zeroSec512 (List.replicate 512 0) zeroSec512Parsed rfl rfl
    Parse_zeroSec512

/-- C4 counterexample: on the concrete pending section `skySec`, whose
sky-light buffer is 2048 bytes of `0xFF`, the sky-light buffer is not
among the buffers the light-unpacking loop reads: `Parse` never applies
the nibble mapping to sky light. -/
theorem c4_sky_counterexample :
    ¬ (List.replicate 2048 255 ∈ Section.ParseLightInputs skySec) := by
  intro hm
  rw [show Section.ParseLightInputs skySec =
      [List.take 2048 (List.replicate 2048 0)] from rfl] at hm
  rw [List.take_replicate, Nat.min_self, List.mem_singleton] at hm
  have h0 := congrArg List.head? hm
  rw [List.head?_replicate, List.head?_replicate] at h0
  norm_num at h0

/-- C4 (corrected): the light-unpacking loop maps the 2048-byte block-light
buffer to exactly 4096 byte values, `(b & 0xF0)` at position `2*i` and
`(b >> 4)` at position `2*i + 1`; it is applied only to the block-light
buffer — the sky-light buffer is never unpacked, and a successful `Parse`
merely releases it. -/
theorem c4_lightExpand_mapping :
    (∀ lb : List Nat, lb.length = 2048 →
      (lightExpand lb).length = 4096 ∧
      ∀ i, i < 2048 →
        (lightExpand lb)[2 * i]? = some (lb.getD i 0 &&& 0xF0) ∧
        (lightExpand lb)[2 * i + 1]? = some (lb.getD i 0 >>> 4)) ∧
    (∀ (s : Section) (data lb : List Nat), s.m_dataBlocks = some data →
      s.m_dataLight = some lb → s.ParseLightInputs = [lb.take 2048]) ∧
    (∀ (s : Section) (data : List Nat) (s' : Section), s.m_dataBlocks = some data →
      s.Parse = ParseOutcome.ok s' → s'.m_dataSkyLight = none) := by
  refine ⟨?_, ?_, ?_⟩
  · intro lb hlen
    refine ⟨by rw [lightExpand_length, hlen], ?_⟩
    intro i hi
    exact lightExpand_getElem lb i (by omega)
  · intro s data lb hd hl
    rw [Section.ParseLightInputs.eq_def, hd, hl]
  · intro s data s' hd hok
    obtain ⟨lb, hl, hlen, hB, hchk, hs'⟩ := Parse_ok_inversion s data s' hd hok
    subst hs'
    rfl

theorem c4_lightExpand_mapping_witness :
    Section.ParseLightInputs skySec = [List.take 2048 (List.replicate 2048 0)] :=
  c4_lightExpand_mapping.2.1 skySec (List.replicate 2048 0) (List.replicate 2048 0) rfl rfl

/-- C6 (confirmed): on a pending section whose decode reaches the check
(no out-of-bounds access), `Parse` throws exactly when
`(light.size() + blocks.size()) / 2 != 4096`; the light unpacker always
yields 4096 entries from its 2048-byte buffer, and the combined check also
passes for a concrete input whose decoded block count is 4097, so a
block-count-only discrepancy goes undetected. -/
theorem c6_consistency_check (s : Section) (data lb : List Nat)
    (hd : s.m_dataBlocks = some data) (hl : s.m_dataLight = some lb)
    (hlen : 2048 ≤ lb.length)
    (hB : 4096 ≤ (bitUnpack s.m_bitsPerBlock (endianSwap data)).length)
    (hp : ¬ (0 < s.m_palette.length ∧
      ((bitUnpack s.m_bitsPerBlock (endianSwap data)).take 4096).any
        (fun i => decide (s.m_palette.length ≤ i)) = true)) :
    ((∃ t, s.Parse = ParseOutcome.thrown t) ↔
      ((lightExpand (lb.take 2048)).length +
        (bitUnpack s.m_bitsPerBlock (endianSwap data)).length) / 2 ≠ 4096) ∧
    (lightExpand (lb.take 2048)).length = 4096 ∧
    (∃ t, Section.Parse (mkSection default (List.replicate 4097 0) (List.replicate 2048 0) none 8 [])
        = ParseOutcome.ok t ∧
      (bitUnpack 8 (endianSwap (List.replicate 4097 0))).length = 4097) := by
  refine ⟨⟨?_, ?_⟩, ?_, ?_⟩
  · rintro ⟨t, ht⟩
    obtain ⟨lb2, hl2, _, _, hne, _⟩ := Parse_thrown_inversion s data t hd ht
    rw [hl] at hl2
    injection hl2 with he
    subst he
    exact hne
  · intro hne
    rw [Section.Parse.eq_def, hd, hl]
    dsimp only
    rw [if_neg (by omega), parseFinish, if_neg (by omega), if_neg hp, if_pos hne]
    exact ⟨_, rfl⟩
  · rw [lightExpand_length, List.length_take]
    omega
  · refine ⟨{ worldPosition := default
              m_dataBlocks := none
              m_dataLight := none
              m_dataSkyLight := none
              m_palette := []
              m_bitsPerBlock := 8
              m_blocks := List.replicate 4096 (Block.mk 0 0) }, ?_, ?_⟩
    · rw [Parse_mk_zero default none 4097 8 (by norm_num)]
      norm_num
    · rw [endianSwap_replicate_zero, bitUnpack_replicate_zero 8 4097 (by norm_num),
        List.length_replicate]

theorem c6_consistency_check_witness :
    ∃ t, Section.Parse zeroSec520 = ParseOutcome.thrown t :=
  (c6_consistency_check zeroSec520 (List.replicate 520 0) (List.replicate 2048 0) rfl rfl
    (by rw [List.length_replicate])
    (by rw [show zeroSec520.m_bitsPerBlock = 1 from rfl, endianSwap_replicate_zero,
          bitUnpack_replicate_zero 1 520 (by norm_num), List.length_replicate]
        norm_num)
    (fun h => absurd h.1 (by norm_num [zeroSec520, mkSection]))).1.mpr
    (by rw [List.take_replicate, Nat.min_self, lightExpand_replicate_zero,
          List.length_replicate, show zeroSec520.m_bitsPerBlock = 1 from rfl,
          endianSwap_replicate_zero, bitUnpack_replicate_zero 1 520 (by norm_num),
          List.length_replicate]
        norm_num)

/-- C7 counterexample: copying the concrete decoded section
`zeroSec512Parsed` does not produce a section whose voxel array equals the
original's — the copy constructor reads 2048 bytes from the null light
buffer (undefined behaviour), and no copy ever receives the voxels. -/
theorem c7_copy_counterexample :
    ¬ (∃ c, Section.copy zeroSec512Parsed = some c ∧
        c.m_blocks = zeroSec512Parsed.m_blocks) := by
  rintro ⟨c, hc, _⟩
  rw [show Section.copy zeroSec512Parsed = none from rfl] at hc
  exact absurd hc (by simp)

/-- C7 (corrected): copy-constructing a pending section duplicates the raw
block, light and sky-light buffers element for element (and copies the
palette and bit width); but the voxel vector is never copied — every copy
has an empty `m_blocks` — and copy-constructing a decoded section reads
2048 bytes from the freed (null) light buffer, which is undefined
behaviour. -/
theorem c7_copy_semantics :
    (∀ (pos : Vec) (d l : List Nat) (sky : Option (List Nat)) (n : Nat) (p : List Nat),
      l.length = 2048 → (∀ sb, sky = some sb → sb.length = 2048) →
      Section.copy (mkSection pos d l sky n p) = some (mkSection pos d l sky n p)) ∧
    (∀ (s c : Section), Section.copy s = some c → c.m_blocks = []) ∧
    (∀ (s : Section) (data : List Nat) (s' : Section), s.m_dataBlocks = some data →
      s.Parse = ParseOutcome.ok s' → Section.copy s' = none) := by
  refine ⟨?_, ?_, ?_⟩
  · intro pos d l sky n p hl hsky
    rw [Section.copy.eq_def]
    dsimp only [mkSection]
    rw [if_neg (by omega)]
    have hskyc : ¬ (((sky.getD []).length < 2048) ∧ sky ≠ none) := by
      rcases sky with _ | sb
      · simp
      · have h2048 := hsky sb rfl
        rw [Option.getD_some]
        omega
    rw [if_neg hskyc]
    simp only [Option.getD_some]
    rw [show l.take 2048 = l from by rw [← hl, List.take_length]]
    rcases sky with _ | sb
    · rfl
    · simp only [Option.map_some']
      rw [show sb.take 2048 = sb from by rw [← hsky sb rfl, List.take_length]]
  · intro s c hc
    rw [Section.copy.eq_def] at hc
    cases hl : s.m_dataLight with
    | none =>
      rw [hl] at hc
      exact absurd hc (by simp)
    | some lb =>
      rw [hl] at hc
      dsimp only at hc
      split_ifs at hc with h1 h2
      injection hc with hc
      rw [← hc]
  · intro s data s' hd hok
    obtain ⟨lb, hl, hlen, hB, hchk, hs'⟩ := Parse_ok_inversion s data s' hd hok
    subst hs'
    rfl

theorem c7_copy_semantics_witness :
    Section.copy (mkSection default (List.replicate 8 0) (List.replicate 2048 0) none 1 []) =
      some (mkSection default (List.replicate 8 0) (List.replicate 2048 0) none 1 []) :=
  c7_copy_semantics.1 default (List.replicate 8 0) (List.replicate 2048 0) none 1 []
    (by rw [List.length_replicate]) (fun sb h => nomatch h)

/-- C10 (confirmed): `Parse` reads `blocks[0]` through `blocks[4095]`
unconditionally, so whenever the decoded entry count
`floor(8 * rawBlockLength / bitsPerBlock)` is below 4096 the access is out
of range (undefined behaviour); the construction boundary contract —
`rawBlockLength % 8 == 0` and `bitsPerBlock ≥ 1` — does not rule this out:
the validly constructed `zeroSec8` (8 bytes, width 1, only 64 entries)
reaches the out-of-range access. -/
theorem c10_short_buffer_ub :
    (∀ (s : Section) (data lb : List Nat), s.m_dataBlocks = some data →
      s.m_dataLight = some lb → 2048 ≤ lb.length →
      (bitUnpack s.m_bitsPerBlock (endianSwap data)).length < 4096 →
      s.Parse = ParseOutcome.ub) ∧
    (List.replicate 8 (0:Nat)).length % 8 = 0 ∧
    Section.Parse zeroSec8 = ParseOutcome.ub := by
  refine ⟨?_, ?_, ?_⟩
  · intro s data lb hd hl hlen hB
    rw [Section.Parse.eq_def, hd, hl]
    dsimp only
    rw [if_neg (by omega), parseFinish, if_pos hB]
  · rw [List.length_replicate]
  · rw [zeroSec8, Parse_mk_zero default none 8 1 (by norm_num)]
    norm_num

theorem c10_short_buffer_ub_witness : Section.Parse zeroSec8 = ParseOutcome.ub :=
  c10_short_buffer_ub.1 zeroSec8 (List.replicate 8 0) (List.replicate 2048 0) rfl rfl
    (by rw [List.length_replicate])
    (by rw [show zeroSec8.m_bitsPerBlock = 1 from rfl, endianSwap_replicate_zero,
          bitUnpack_replicate_zero 1 8 (by norm_num), List.length_replicate]
        norm_num)
